import Mathlib

set_option maxHeartbeats 1000000

/-!
Shallow embedding of the MPU (memory protection unit) configuration subsystem
of `src/core/cortex-m/mpu.c`.  Machine integers are embedded as `Nat` with
explicit `% 2 ^ w` where the C arithmetic can overflow; register writes are
explicit state passing on `MpuState`; fallible functions return their final
state together with an optional error.  Every result additionally carries a
ghost trace of the hardware region writes performed (`RegionWrite`) and of the
region-configuration requests issued (`ConfigReq`); the traces exist only to
state theorems and do not influence control flow.
-/

/-- One hardware MPU region slot: the region base address register and the
packed attribute/size register (written as a single 32-bit unit by
`mpu_update_region`). -/
structure MpuSlot where
  base : Nat
  rasr : Nat
deriving Repr, DecidableEq

/-- Hardware MPU state.  `regionCount` and `isUnified` model the read-only
capability fields decoded from the MPU type register by `mpu_num_regions` and
`mpu_is_unified` (the decoding macros live in `registers.h`, which is not
among the shown sources; modelled from the spec's `HardwareCapability` with
`region_count` and `is_unified`).  `ctrl` is the MPU control register,
`number` the region-select register, `slots` the banked per-region registers,
and `cachesEnabled` models the external `cpu_enable_caches` collaborator. -/
structure MpuState where
  regionCount : Nat
  isUnified : Bool
  ctrl : Nat
  number : Nat
  slots : List MpuSlot
  cachesEnabled : Bool
deriving Repr, DecidableEq

/-- Ghost record of one successful `mpu_update_region` hardware write
sequence: the arguments with which the slot was programmed. -/
structure RegionWrite where
  region : Nat
  addr : Nat
  size_bit : Nat
  attr : Nat
  enable : Nat
  srd : Nat
deriving Repr, DecidableEq

/-- Ghost record of one region-configuration request: the arguments of one
`mpu_config_region` invocation. -/
structure ConfigReq where
  region : Nat
  addr : Nat
  size : Nat
  attr : Nat
  enable : Nat
deriving Repr, DecidableEq

/-- Spec error names.  In the C source every region-configuration failure
returns `-EC_ERROR_INVAL` (and `mpu_pre_init` returns
`EC_ERROR_HW_INTERNAL` / `EC_ERROR_UNIMPLEMENTED`); the constructor records
which source check fired, matching the names the spec gives to the
corresponding failures. -/
inductive ConfigError where
  | misaligned
  | slotOutOfRange
  | invalidSize
  | unrepresentable
  | noMpu
  | unsupportedTopology
deriving Repr, DecidableEq

/-- Result of an MPU operation: final hardware state, ghost traces, and an
optional error (`none` = `EC_SUCCESS`). -/
structure MpuResult where
  s : MpuState
  writes : List RegionWrite
  reqs : List ConfigReq
  err : Option ConfigError
deriving Repr, DecidableEq

/-- Sequencing with early error return (`if (rv != EC_SUCCESS) return rv;`),
accumulating the ghost traces. -/
def MpuResult.seq (r : MpuResult) (f : MpuState → MpuResult) : MpuResult :=
  match r.err with
  | some _ => r
  | none =>
    let r2 := f r.s
    ⟨r2.s, r.writes ++ r2.writes, r.reqs ++ r2.reqs, r2.err⟩

/-- `BIT(x)` from the EC headers. -/
def BIT (x : Nat) : Nat := 1 <<< x

/-- `is_aligned` from `util.h` (not among the shown sources); modelled from
the spec: the base address must be an exact multiple of the (power of two)
region size. -/
def is_aligned (x size : Nat) : Bool := x % size == 0

/-- `POWER_OF_TWO` from `util.h` (not among the shown sources); modelled from
the spec: the length is an exact power of two. -/
def POWER_OF_TWO (x : Nat) : Bool := x != 0 && (x &&& (x - 1)) == 0

/-- `mpu_num_regions`: number of regions supported by the MPU (0 means no
MPU is implemented). -/
def mpu_num_regions (s : MpuState) : Nat := s.regionCount

/-- `has_mpu`: true if the processor has an MPU. -/
def has_mpu (s : MpuState) : Bool := mpu_num_regions s != 0

/-- `mpu_is_unified`: true if the MPU has unified instruction and data
maps. -/
def mpu_is_unified (s : MpuState) : Bool := s.isUnified

/-- `MPU_SIZE_BITS_MIN` from `mpu.h` (not among the shown sources); modelled
from the spec: the minimum region size is 32 bytes, exponent 5. -/
def MPU_SIZE_BITS_MIN : Nat := 5

/-- Write the banked per-region registers of the currently selected slot
(the `MPU_NUMBER` register selects which slot `MPU_BASE` / `MPU_SIZE`
target). -/
def MpuState.setSlot (s : MpuState) (f : MpuSlot → MpuSlot) : MpuState :=
  { s with slots := s.slots.set s.number (f (s.slots.getD s.number ⟨0, 0⟩)) }

/-- `mpu_update_region`: update one memory region slot.  All validation
happens before any register write; on success the slot is disabled and, if
`enable` is non-zero, reprogrammed with the packed
`attr << 16 | srd << 8 | (size_bit - 1) << 1 | 1` value. -/
def mpu_update_region (s : MpuState) (region addr size_bit attr enable srd : Nat) :
    MpuResult :=
  if ¬ is_aligned addr (BIT size_bit) then ⟨s, [], [], some .misaligned⟩
  else if region ≥ mpu_num_regions s then ⟨s, [], [], some .slotOutOfRange⟩
  else if size_bit < MPU_SIZE_BITS_MIN then ⟨s, [], [], some .invalidSize⟩
  else
    let s1 := { s with number := region }
    let s2 := s1.setSlot fun sl => { sl with rasr := sl.rasr &&& 0xFFFFFFFE }
    let s3 :=
      if enable ≠ 0 then
        (s2.setSlot fun sl => { sl with base := addr }).setSlot fun sl =>
          { sl with rasr := (attr <<< 16) ||| (srd <<< 8) ||| ((size_bit - 1) <<< 1) ||| 1 }
      else s2
    ⟨s3, [⟨region, addr, size_bit, attr, enable, srd⟩], [], none⟩

/-- `size_bit` of `mpu_config_region`: bit position of the first 1 in
`size`, i.e. `31 - __builtin_clz(size)` = `⌊log2 size⌋` for a non-zero
32-bit `size`. -/
def cfg_size_bit (size : Nat) : Nat := Nat.log2 size

/-- The check `size & ~(0x3f << (size_bit - 5))` of `mpu_config_region`,
with the C complement of a `uint32_t` written out as XOR with `2^32 - 1`:
non-zero iff the range cannot be represented with at most 2 regions. -/
def cfg_residual (size : Nat) : Nat :=
  size &&& ((2 ^ 32 - 1) ^^^ (0x3f <<< (cfg_size_bit size - 5)))

/-- `blocks` of `mpu_config_region`: the number of fully occupied 1/8th
blocks of the first (rounded-up) region; stored in a `uint8_t`. -/
def cfg_blocks (size : Nat) : Nat := (size >>> (cfg_size_bit size - 2)) % 256

/-- `srd1` of `mpu_config_region`: occupied-block mask of the first
region. -/
def cfg_srd1 (size : Nat) : Nat := (BIT (cfg_blocks size) - 1) % 256

/-- `srd2` of `mpu_config_region`: occupied-block mask of the second
region. -/
def cfg_srd2 (size : Nat) : Nat :=
  ((1 <<< ((size >>> (cfg_size_bit size - 5)) &&& 0x7)) - 1) % 256

/-- Modelled from the spec: the ProtectionTable's symbolic slot indices
(`REGION_DATA_RAM_TEXT` etc.) are assigned in `mpu.h`, which is not among the
shown sources; the spec fixes only their symbolic purposes, so the concrete
indices are carried as parameters. -/
structure MpuLayout where
  REGION_DATA_RAM_TEXT : Nat
  REGION_ROLLBACK : Nat
  REGION_CHIP_RESERVED : Nat
  REGION_STORAGE2 : Nat
  REGION_UNCACHED_RAM : Nat
deriving Repr, DecidableEq

/-- `mpu_config_region`: configure a region.  A power-of-two `size` becomes a
single region write; otherwise the range is represented by a first region
rounded up to `2 ^ (size_bit + 1)` bytes with sub-blocks disabled beyond the
occupied ones, plus (when the occupied part is not a whole number of eighths)
a second region of one eighth of the first, `uint8_t` and `uint32_t`
truncations written as `% 256` / `% 2 ^ 32`. -/
def mpu_config_region (L : MpuLayout) (s : MpuState)
    (region addr size attr enable : Nat) : MpuResult :=
  let req : ConfigReq := ⟨region, addr, size, attr, enable⟩
  if size = 0 then ⟨s, [], [req], none⟩
  else
    let size_bit := cfg_size_bit size
    if size_bit < 5 then ⟨s, [], [req], some .invalidSize⟩
    else if POWER_OF_TWO size then
      let r := mpu_update_region s region addr size_bit attr enable 0
      ⟨r.s, r.writes, [req], r.err⟩
    else if size_bit < 7 then ⟨s, [], [req], some .invalidSize⟩
    else if cfg_residual size ≠ 0 then ⟨s, [], [req], some .unrepresentable⟩
    else
      let blocks := cfg_blocks size
      let srd1 := cfg_srd1 size
      let srd2 := cfg_srd2 size
      if srd2 ≠ 0 ∧ (region = L.REGION_DATA_RAM_TEXT ∨ size_bit < 10) then
        ⟨s, [], [req], some .unrepresentable⟩
      else
        let r1 := mpu_update_region s region addr (size_bit + 1) attr enable (srd1 ^^^ 0xff)
        if r1.err ≠ none then ⟨r1.s, r1.writes, [req], r1.err⟩
        else
          let addr2 := (addr + BIT (size_bit - 2) * blocks) % 2 ^ 32
          if srd2 ≠ 0 then
            let r2 := mpu_update_region r1.s ((region + 1) % 256) addr2 (size_bit - 2)
              attr enable (srd2 ^^^ 0xff)
            ⟨r2.s, r1.writes ++ r2.writes, [req], r2.err⟩
          else ⟨r1.s, r1.writes, [req], r1.err⟩

/-- The set of byte addresses left protected (enabled) by one region write:
the region is enabled, the address lies inside the region, and the 1/8th
sub-block containing it has its disable bit clear. -/
def writeEnabled (w : RegionWrite) (a : Nat) : Bool :=
  w.enable != 0 && decide (w.addr ≤ a) && decide (a < w.addr + 2 ^ w.size_bit) &&
    ! w.srd.testBit ((a - w.addr) / 2 ^ (w.size_bit - 3))

/-- Union of the enabled address ranges of a write trace. -/
def traceEnabled (ws : List RegionWrite) (a : Nat) : Bool :=
  ws.any fun w => writeEnabled w a

/-- Modelled from the spec: attribute bit patterns come from `mpu.h`, which
is not among the shown sources.  `MPU_ATTR_XN` is the execute-never bit,
`MPU_ATTR_NO_NO` the no-access (privileged and unprivileged) pattern,
`MPU_ATTR_RW_RW` the read-write pattern.  Their values do not influence the
control flow of the embedded code. -/
def MPU_ATTR_XN : Nat := BIT 12

/-- Modelled from the spec: no-access attribute pattern (see
`MPU_ATTR_XN`). -/
def MPU_ATTR_NO_NO : Nat := 0

/-- Modelled from the spec: read-write attribute pattern (see
`MPU_ATTR_XN`). -/
def MPU_ATTR_RW_RW : Nat := 3 <<< 8

/-- Modelled from the spec: MPU control register enable bit (`registers.h`
is not among the shown sources). -/
def MPU_CTRL_ENABLE : Nat := 1

/-- Modelled from the spec: MPU control register fault-escalation bit. -/
def MPU_CTRL_HFNMIENA : Nat := 2

/-- Modelled from the spec: MPU control register default-privileged-access
bit. -/
def MPU_CTRL_PRIVDEFEN : Nat := 4

/-- `mpu_enable`: set the control bits. -/
def mpu_enable (s : MpuState) : MpuState :=
  { s with ctrl := s.ctrl ||| (MPU_CTRL_PRIVDEFEN ||| MPU_CTRL_HFNMIENA ||| MPU_CTRL_ENABLE) }

/-- `mpu_disable`: clear the control bits (`&= ~mask` on a `uint32_t`). -/
def mpu_disable (s : MpuState) : MpuState :=
  { s with ctrl :=
      s.ctrl &&& ((2 ^ 32 - 1) ^^^ (MPU_CTRL_PRIVDEFEN ||| MPU_CTRL_HFNMIENA ||| MPU_CTRL_ENABLE)) }

/-- Modelled from the spec: the cache-enable collaborator (`cpu.h` is not
among the shown sources); the dependent cache is enabled only after the
protection configuration is final. -/
def cpu_enable_caches (s : MpuState) : MpuState := { s with cachesEnabled := true }

/-- `mpu_lock_rollback`: lock the rollback byte range.
`rollback_region_start_address` and `rollback_region_total_size` stand for
`CONFIG_MAPPED_STORAGE_BASE + CONFIG_ROLLBACK_OFF` and
`CONFIG_ROLLBACK_SIZE`, board-config link-time constants the spec treats as
opaque `(address, length)` pairs (modelled from the spec as parameters). -/
def mpu_lock_rollback (L : MpuLayout)
    (rollback_region_start_address rollback_region_total_size : Nat)
    (s : MpuState) (lock : Nat) : MpuResult :=
  let num_mpu_regions := mpu_num_regions s
  let mpu_attr := MPU_ATTR_XN ||| MPU_ATTR_NO_NO
  let rollback_mpu_region := L.REGION_ROLLBACK
  if rollback_mpu_region < num_mpu_regions then
    mpu_config_region L s rollback_mpu_region rollback_region_start_address
      rollback_region_total_size mpu_attr lock
  else
    (mpu_config_region L s L.REGION_CHIP_RESERVED rollback_region_start_address
        (rollback_region_total_size / 2) mpu_attr lock).seq fun s1 =>
      mpu_config_region L s1 L.REGION_STORAGE2
        ((rollback_region_start_address + rollback_region_total_size / 2) % 2 ^ 32)
        (rollback_region_total_size / 2) mpu_attr lock

/-- `CORTEX_M_SRAM_BASE` (`cpu.h`, not among the shown sources); modelled
from the spec: a fixed placeholder base address aligned to the minimum
region size, used only for disabled regions. -/
def CORTEX_M_SRAM_BASE : Nat := 0x20000000

/-- The `mpu_pre_init` loop disabling regions `0, …, n - 1` in order, with
early error return. -/
def mpu_clear_regions (s : MpuState) : Nat → MpuResult
  | 0 => ⟨s, [], [], none⟩
  | n + 1 =>
    (mpu_clear_regions s n).seq fun s1 =>
      mpu_update_region s1 n CORTEX_M_SRAM_BASE MPU_SIZE_BITS_MIN 0 0 0

/-- `mpu_pre_init`: the boot sequencer.  `cfgRollback`, `cfgCache` and
`cfgUncached` stand for `IS_ENABLED(CONFIG_ROLLBACK_MPU_PROTECT)`,
`IS_ENABLED(CONFIG_ARMV7M_CACHE)` and `defined(CONFIG_CHIP_UNCACHED_REGION)`;
`rbStart`/`rbTotal` and `ucStart`/`ucSize` are the board-config rollback and
uncached ranges (modelled from the spec as parameters, like for
`mpu_lock_rollback`). -/
def mpu_pre_init (L : MpuLayout) (cfgRollback cfgCache cfgUncached : Bool)
    (rbStart rbTotal ucStart ucSize : Nat) (s : MpuState) : MpuResult :=
  if ¬ has_mpu s then ⟨s, [], [], some .noMpu⟩
  else if ¬ mpu_is_unified s ∨ (mpu_num_regions s ≠ 8 ∧ mpu_num_regions s ≠ 16) then
    ⟨s, [], [], some .unsupportedTopology⟩
  else
    ((((mpu_clear_regions (mpu_disable s) (mpu_num_regions (mpu_disable s))).seq fun s1 =>
        if cfgRollback then mpu_lock_rollback L rbStart rbTotal s1 1
        else ⟨s1, [], [], none⟩).seq fun s2 =>
      if cfgCache ∧ cfgUncached then
        mpu_config_region L s2 L.REGION_UNCACHED_RAM ucStart ucSize
          (MPU_ATTR_XN ||| MPU_ATTR_RW_RW) 1
      else ⟨s2, [], [], none⟩).seq fun s3 =>
      let s4 := mpu_enable s3
      ⟨if cfgCache then cpu_enable_caches s4 else s4, [], [], none⟩)

/-! ### Arithmetic helper lemmas -/

/-- `Nat.log2` is determined by the enclosing power-of-two bracket. -/
lemma log2_eq_of {n k : Nat} (h1 : 2 ^ k ≤ n) (h2 : n < 2 ^ (k + 1)) : Nat.log2 n = k := by
  have hn : n ≠ 0 := by
    have := Nat.two_pow_pos k
    omega
  have ha := (Nat.le_log2 hn).2 h1
  have hb := (Nat.log2_lt hn).2 h2
  omega

lemma log2_two_pow (k : Nat) : Nat.log2 (2 ^ k) = k :=
  log2_eq_of (Nat.le_refl _) (Nat.pow_lt_pow_right (by omega) (by omega))

lemma POWER_OF_TWO_two_pow (k : Nat) : POWER_OF_TWO (2 ^ k) = true := by
  have h := Nat.and_pow_two_sub_one_eq_mod (2 ^ k) k
  have hp := Nat.two_pow_pos k
  have h0 : (2 : Nat) ^ k ≠ 0 := by omega
  simp [POWER_OF_TWO, h, Nat.mod_self, h0]

/-- A non-zero number whose `x &&& (x - 1)` vanishes is the power of two at
its own log2. -/
lemma eq_two_pow_of_POWER_OF_TWO {n : Nat} (h : POWER_OF_TWO n = true) :
    n = 2 ^ Nat.log2 n := by
  simp only [POWER_OF_TWO, Bool.and_eq_true, bne_iff_ne, ne_eq, beq_iff_eq] at h
  obtain ⟨hn0, hand⟩ := h
  by_contra hne
  have h1 : 2 ^ Nat.log2 n ≤ n := Nat.log2_self_le hn0
  have h2 : n < 2 ^ (Nat.log2 n + 1) := Nat.lt_log2_self
  have hpow : 2 ^ (Nat.log2 n + 1) = 2 * 2 ^ Nat.log2 n := by
    rw [Nat.pow_succ]; ring
  have hbn : n.testBit (Nat.log2 n) = true := by
    rw [Nat.testBit_to_div_mod]
    have : n / 2 ^ Nat.log2 n = 1 := Nat.div_eq_of_lt_le (by omega) (by omega)
    simp [this]
  have hbn1 : (n - 1).testBit (Nat.log2 n) = true := by
    rw [Nat.testBit_to_div_mod]
    have : (n - 1) / 2 ^ Nat.log2 n = 1 := Nat.div_eq_of_lt_le (by omega) (by omega)
    simp [this]
  have := congrArg (fun m => m.testBit (Nat.log2 n)) hand
  simp [Nat.testBit_land, hbn, hbn1] at this

lemma mod_two_pow_eq_zero_iff_testBit {n k : Nat} :
    n % 2 ^ k = 0 ↔ ∀ i, i < k → n.testBit i = false := by
  constructor
  · intro h i hik
    have := congrArg (fun m => m.testBit i) h
    simp only [Nat.testBit_mod_two_pow, Nat.zero_testBit] at this
    simpa [hik] using this
  · intro h
    apply Nat.eq_of_testBit_eq
    intro i
    simp only [Nat.testBit_mod_two_pow, Nat.zero_testBit]
    by_cases hik : i < k
    · simp [hik, h i hik]
    · simp [hik]

lemma land_eq_zero_iff {x y : Nat} :
    x &&& y = 0 ↔ ∀ i, ¬(x.testBit i = true ∧ y.testBit i = true) := by
  constructor
  · intro h i hi
    have := congrArg (fun m => m.testBit i) h
    simp [Nat.testBit_land, hi.1, hi.2] at this
  · intro h
    apply Nat.eq_of_testBit_eq
    intro i
    simp only [Nat.testBit_land, Nat.zero_testBit]
    by_cases hx : x.testBit i = true
    · by_cases hy : y.testBit i = true
      · exact absurd ⟨hx, hy⟩ (h i)
      · simp only [Bool.not_eq_true] at hy
        simp [hy]
    · simp only [Bool.not_eq_true] at hx
      simp [hx]

lemma pow_split (a b : Nat) (h : b ≤ a) : 2 ^ a = 2 ^ (a - b) * 2 ^ b := by
  rw [← Nat.pow_add]
  congr 1
  omega

/-- Bit pattern of the 32-bit complement mask used by the representability
check: set exactly on the positions below 32 and outside `[e - 5, e]`. -/
lemma mask_testBit (e i : Nat) :
    ((2 ^ 32 - 1) ^^^ (0x3f <<< (e - 5))).testBit i
      = (decide (i < 32) ^^ (decide (i ≥ e - 5) && decide (i - (e - 5) < 6))) := by
  rw [Nat.testBit_xor, Nat.testBit_shiftLeft]
  congr 1
  · exact Nat.testBit_two_pow_sub_one 32 i
  · congr 1
    rw [show (0x3f : Nat) = 2 ^ 6 - 1 by norm_num]
    exact Nat.testBit_two_pow_sub_one 6 _

/-- For a non-zero 32-bit size with `size_bit ≥ 7`, the representability
check of `mpu_config_region` vanishes exactly when the size is a multiple of
`2 ^ (size_bit - 5)`: the range occupies whole 1/32nds of its power-of-two
envelope. -/
lemma cfg_residual_eq_zero_iff {size : Nat} (h0 : size ≠ 0) (h32 : size < 2 ^ 32)
    (h7 : 7 ≤ cfg_size_bit size) :
    cfg_residual size = 0 ↔ size % 2 ^ (cfg_size_bit size - 5) = 0 := by
  have he2 : size < 2 ^ (cfg_size_bit size + 1) := Nat.lt_log2_self
  have he31 : cfg_size_bit size ≤ 31 := by
    by_contra hgt
    have h32le : 2 ^ 32 ≤ 2 ^ cfg_size_bit size := Nat.pow_le_pow_right (by omega) (by omega)
    have h1 : 2 ^ cfg_size_bit size ≤ size := Nat.log2_self_le h0
    omega
  simp only [cfg_residual]
  rw [land_eq_zero_iff, mod_two_pow_eq_zero_iff_testBit]
  constructor
  · intro h i hik
    by_contra hbit
    simp only [Bool.not_eq_false] at hbit
    apply h i
    refine ⟨hbit, ?_⟩
    rw [mask_testBit]
    have hi32 : i < 32 := by omega
    have hige : ¬ (cfg_size_bit size - 5 ≤ i) := by omega
    simp [hi32, hige]
  · intro h i hi
    obtain ⟨hs, hm⟩ := hi
    rw [mask_testBit] at hm
    by_cases hlt : i < cfg_size_bit size - 5
    · rw [h i hlt] at hs
      exact Bool.false_ne_true hs
    · by_cases hle : i ≤ cfg_size_bit size
      · have h1 : i < 32 := by omega
        have h2 : cfg_size_bit size - 5 ≤ i := by omega
        have h3 : i - (cfg_size_bit size - 5) < 6 := by omega
        simp [h1, h2, h3] at hm
      · have hsf : size.testBit i = false := by
          apply Nat.testBit_lt_two_pow
          calc size < 2 ^ (cfg_size_bit size + 1) := he2
            _ ≤ 2 ^ i := Nat.pow_le_pow_right (by omega) (by omega)
        rw [hsf] at hs
        exact Bool.false_ne_true hs

/-- Facts about the rounded (non-power-of-two) split of `mpu_config_region`:
writing `m = size / 2 ^ (size_bit - 5)` for the occupied 1/32nds of the
doubled envelope, `m` is between 32 and 63, the first region keeps `m / 8`
eighths and the second `m % 8` eighths of an eighth. -/
lemma cfg_split {size : Nat} (h0 : size ≠ 0) (h32 : size < 2 ^ 32)
    (h7 : 7 ≤ cfg_size_bit size) (hres : cfg_residual size = 0) :
    size = size / 2 ^ (cfg_size_bit size - 5) * 2 ^ (cfg_size_bit size - 5) ∧
    32 ≤ size / 2 ^ (cfg_size_bit size - 5) ∧
    size / 2 ^ (cfg_size_bit size - 5) < 64 ∧
    cfg_blocks size = size / 2 ^ (cfg_size_bit size - 5) / 8 ∧
    cfg_srd1 size = 2 ^ cfg_blocks size - 1 ∧
    cfg_srd2 size = 2 ^ (size / 2 ^ (cfg_size_bit size - 5) % 8) - 1 := by
  have he1 : 2 ^ cfg_size_bit size ≤ size := Nat.log2_self_le h0
  have he2 : size < 2 ^ (cfg_size_bit size + 1) := Nat.lt_log2_self
  have hX : 0 < 2 ^ (cfg_size_bit size - 5) := Nat.two_pow_pos _
  have hmod : size % 2 ^ (cfg_size_bit size - 5) = 0 :=
    (cfg_residual_eq_zero_iff h0 h32 h7).1 hres
  have hsize_eq : size = size / 2 ^ (cfg_size_bit size - 5) * 2 ^ (cfg_size_bit size - 5) :=
    (Nat.div_mul_cancel (Nat.dvd_of_mod_eq_zero hmod)).symm
  have hpow5 : 2 ^ cfg_size_bit size = 2 ^ (cfg_size_bit size - 5) * 32 := by
    rw [pow_split (cfg_size_bit size) 5 (by omega)]
    norm_num
  have hpow6 : 2 ^ (cfg_size_bit size + 1) = 2 ^ (cfg_size_bit size - 5) * 64 := by
    rw [pow_split (cfg_size_bit size + 1) 6 (by omega),
      (by omega : cfg_size_bit size + 1 - 6 = cfg_size_bit size - 5)]
    norm_num
  have hpow3 : 2 ^ (cfg_size_bit size - 2) = 2 ^ (cfg_size_bit size - 5) * 8 := by
    rw [pow_split (cfg_size_bit size - 2) 3 (by omega),
      (by omega : cfg_size_bit size - 2 - 3 = cfg_size_bit size - 5)]
    norm_num
  have hm_lo : 32 ≤ size / 2 ^ (cfg_size_bit size - 5) := by
    have := Nat.le_div_iff_mul_le (k := 2 ^ (cfg_size_bit size - 5)) hX
      (x := 32) (y := size)
    apply this.2
    calc 32 * 2 ^ (cfg_size_bit size - 5) = 2 ^ cfg_size_bit size := by
          rw [hpow5]; ring
      _ ≤ size := he1
  have hm_hi : size / 2 ^ (cfg_size_bit size - 5) < 64 := by
    have := Nat.div_lt_iff_lt_mul (k := 2 ^ (cfg_size_bit size - 5)) hX
      (x := size) (y := 64)
    apply this.2
    calc size < 2 ^ (cfg_size_bit size + 1) := he2
      _ = 64 * 2 ^ (cfg_size_bit size - 5) := by rw [hpow6]; ring
  have hblocks : cfg_blocks size = size / 2 ^ (cfg_size_bit size - 5) / 8 := by
    simp only [cfg_blocks, Nat.shiftRight_eq_div_pow]
    rw [hpow3, ← Nat.div_div_eq_div_mul]
    apply Nat.mod_eq_of_lt
    have : size / 2 ^ (cfg_size_bit size - 5) / 8 < 64 / 8 + 1 := by omega
    omega
  refine ⟨hsize_eq, hm_lo, hm_hi, hblocks, ?_, ?_⟩
  · simp only [cfg_srd1, BIT, Nat.shiftLeft_eq, Nat.one_mul, hblocks]
    apply Nat.mod_eq_of_lt
    have hb8 : size / 2 ^ (cfg_size_bit size - 5) / 8 < 8 := by omega
    have : (2 : Nat) ^ (size / 2 ^ (cfg_size_bit size - 5) / 8) ≤ 2 ^ 7 :=
      Nat.pow_le_pow_right (by omega) (by omega)
    omega
  · simp only [cfg_srd2, Nat.shiftLeft_eq, Nat.one_mul, Nat.shiftRight_eq_div_pow]
    rw [show (0x7 : Nat) = 2 ^ 3 - 1 by norm_num, Nat.and_pow_two_sub_one_eq_mod]
    have h8 : size / 2 ^ (cfg_size_bit size - 5) % 2 ^ 3 = size / 2 ^ (cfg_size_bit size - 5) % 8 := by
      norm_num
    rw [h8]
    apply Nat.mod_eq_of_lt
    have hb8 : size / 2 ^ (cfg_size_bit size - 5) % 8 < 8 := Nat.mod_lt _ (by omega)
    have : (2 : Nat) ^ (size / 2 ^ (cfg_size_bit size - 5) % 8) ≤ 2 ^ 7 :=
      Nat.pow_le_pow_right (by omega) (by omega)
    omega

/-! ### Characterization of mpu_update_region -/

lemma BIT_eq (x : Nat) : BIT x = 2 ^ x := by
  simp [BIT, Nat.shiftLeft_eq]

lemma mpu_update_region_eq_misaligned {s : MpuState}
    {region addr size_bit attr enable srd : Nat} (h1 : addr % 2 ^ size_bit ≠ 0) :
    mpu_update_region s region addr size_bit attr enable srd
      = ⟨s, [], [], some .misaligned⟩ := by
  simp [mpu_update_region, is_aligned, BIT_eq, h1]

lemma mpu_update_region_eq_oor {s : MpuState}
    {region addr size_bit attr enable srd : Nat} (h1 : addr % 2 ^ size_bit = 0)
    (h2 : s.regionCount ≤ region) :
    mpu_update_region s region addr size_bit attr enable srd
      = ⟨s, [], [], some .slotOutOfRange⟩ := by
  simp [mpu_update_region, is_aligned, BIT_eq, h1, mpu_num_regions, h2]

lemma mpu_update_region_eq_small {s : MpuState}
    {region addr size_bit attr enable srd : Nat} (h1 : addr % 2 ^ size_bit = 0)
    (h2 : region < s.regionCount) (h3 : size_bit < 5) :
    mpu_update_region s region addr size_bit attr enable srd
      = ⟨s, [], [], some .invalidSize⟩ := by
  simp [mpu_update_region, is_aligned, BIT_eq, h1, mpu_num_regions,
    Nat.not_le.2 h2, MPU_SIZE_BITS_MIN, h3]

lemma mpu_update_region_ok (s : MpuState)
    (region addr size_bit attr enable srd : Nat) (h1 : addr % 2 ^ size_bit = 0)
    (h2 : region < s.regionCount) (h3 : 5 ≤ size_bit) :
    (mpu_update_region s region addr size_bit attr enable srd).err = none ∧
    (mpu_update_region s region addr size_bit attr enable srd).writes
      = [⟨region, addr, size_bit, attr, enable, srd⟩] ∧
    (mpu_update_region s region addr size_bit attr enable srd).reqs = [] := by
  simp [mpu_update_region, is_aligned, BIT_eq, h1, mpu_num_regions,
    Nat.not_le.2 h2, MPU_SIZE_BITS_MIN, Nat.not_lt.2 h3]

lemma mpu_update_region_err_iff {s : MpuState}
    {region addr size_bit attr enable srd : Nat} :
    (mpu_update_region s region addr size_bit attr enable srd).err = none ↔
      (addr % 2 ^ size_bit = 0 ∧ region < s.regionCount ∧ 5 ≤ size_bit) := by
  constructor
  · intro h
    by_cases h1 : addr % 2 ^ size_bit = 0
    · by_cases h2 : region < s.regionCount
      · by_cases h3 : 5 ≤ size_bit
        · exact ⟨h1, h2, h3⟩
        · rw [mpu_update_region_eq_small h1 h2 (by omega)] at h
          simp at h
      · rw [mpu_update_region_eq_oor h1 (by omega)] at h
        simp at h
    · rw [mpu_update_region_eq_misaligned h1] at h
      simp at h
  · intro ⟨h1, h2, h3⟩
    exact (mpu_update_region_ok _ _ _ _ _ _ _ h1 h2 h3).1

lemma mpu_update_region_error_frame {s : MpuState}
    {region addr size_bit attr enable srd : Nat} {e : ConfigError}
    (h : (mpu_update_region s region addr size_bit attr enable srd).err = some e) :
    mpu_update_region s region addr size_bit attr enable srd = ⟨s, [], [], some e⟩ := by
  by_cases h1 : addr % 2 ^ size_bit = 0
  · by_cases h2 : region < s.regionCount
    · by_cases h3 : 5 ≤ size_bit
      · rw [(mpu_update_region_ok _ _ _ _ attr enable srd h1 h2 h3).1] at h
        simp at h
      · rw [mpu_update_region_eq_small h1 h2 (by omega)] at h ⊢
        simp at h
        rw [← h]
    · rw [mpu_update_region_eq_oor h1 (by omega)] at h ⊢
      simp at h
      rw [← h]
  · rw [mpu_update_region_eq_misaligned h1] at h ⊢
    simp at h
    rw [← h]

/-! ### Branch equations of mpu_config_region -/

lemma config_eq_zero (L : MpuLayout) (s : MpuState) (region addr attr enable : Nat) :
    mpu_config_region L s region addr 0 attr enable
      = ⟨s, [], [⟨region, addr, 0, attr, enable⟩], none⟩ := by
  simp [mpu_config_region]

lemma config_eq_small {L : MpuLayout} {s : MpuState} {region addr size attr enable : Nat}
    (h0 : size ≠ 0) (h5 : cfg_size_bit size < 5) :
    mpu_config_region L s region addr size attr enable
      = ⟨s, [], [⟨region, addr, size, attr, enable⟩], some .invalidSize⟩ := by
  simp [mpu_config_region, h0, h5]

lemma config_eq_pow2 {L : MpuLayout} {s : MpuState} {region addr size attr enable : Nat}
    (h0 : size ≠ 0) (h5 : ¬ cfg_size_bit size < 5) (hp2 : POWER_OF_TWO size = true) :
    mpu_config_region L s region addr size attr enable =
      { mpu_update_region s region addr (cfg_size_bit size) attr enable 0 with
        reqs := [⟨region, addr, size, attr, enable⟩] } := by
  simp [mpu_config_region, h0, h5, hp2]

lemma config_eq_sub128 {L : MpuLayout} {s : MpuState} {region addr size attr enable : Nat}
    (h0 : size ≠ 0) (h5 : ¬ cfg_size_bit size < 5) (hp2 : POWER_OF_TWO size = false)
    (h7 : cfg_size_bit size < 7) :
    mpu_config_region L s region addr size attr enable
      = ⟨s, [], [⟨region, addr, size, attr, enable⟩], some .invalidSize⟩ := by
  simp [mpu_config_region, h0, h5, hp2, h7]

lemma config_eq_unrep {L : MpuLayout} {s : MpuState} {region addr size attr enable : Nat}
    (h0 : size ≠ 0) (h5 : ¬ cfg_size_bit size < 5) (hp2 : POWER_OF_TWO size = false)
    (h7 : ¬ cfg_size_bit size < 7) (hres : cfg_residual size ≠ 0) :
    mpu_config_region L s region addr size attr enable
      = ⟨s, [], [⟨region, addr, size, attr, enable⟩], some .unrepresentable⟩ := by
  simp [mpu_config_region, h0, h5, hp2, h7, hres]

lemma config_eq_gate {L : MpuLayout} {s : MpuState} {region addr size attr enable : Nat}
    (h0 : size ≠ 0) (h5 : ¬ cfg_size_bit size < 5) (hp2 : POWER_OF_TWO size = false)
    (h7 : ¬ cfg_size_bit size < 7) (hres : cfg_residual size = 0)
    (hg : cfg_srd2 size ≠ 0 ∧ (region = L.REGION_DATA_RAM_TEXT ∨ cfg_size_bit size < 10)) :
    mpu_config_region L s region addr size attr enable
      = ⟨s, [], [⟨region, addr, size, attr, enable⟩], some .unrepresentable⟩ := by
  simp [mpu_config_region, h0, h5, hp2, h7, hres, hg]

lemma config_eq_one_region {L : MpuLayout} {s : MpuState} {region addr size attr enable : Nat}
    (h0 : size ≠ 0) (h5 : ¬ cfg_size_bit size < 5) (hp2 : POWER_OF_TWO size = false)
    (h7 : ¬ cfg_size_bit size < 7) (hres : cfg_residual size = 0)
    (hsrd2 : cfg_srd2 size = 0) :
    mpu_config_region L s region addr size attr enable =
      { mpu_update_region s region addr (cfg_size_bit size + 1) attr enable
          (cfg_srd1 size ^^^ 0xff) with
        reqs := [⟨region, addr, size, attr, enable⟩] } := by
  simp [mpu_config_region, h0, h5, hp2, h7, hres, hsrd2]

lemma config_eq_two_region {L : MpuLayout} {s : MpuState} {region addr size attr enable : Nat}
    (h0 : size ≠ 0) (h5 : ¬ cfg_size_bit size < 5) (hp2 : POWER_OF_TWO size = false)
    (h7 : ¬ cfg_size_bit size < 7) (hres : cfg_residual size = 0)
    (hg : ¬ (cfg_srd2 size ≠ 0 ∧ (region = L.REGION_DATA_RAM_TEXT ∨ cfg_size_bit size < 10)))
    (hsrd2 : cfg_srd2 size ≠ 0)
    (hr1 : (mpu_update_region s region addr (cfg_size_bit size + 1) attr enable
        (cfg_srd1 size ^^^ 0xff)).err = none) :
    mpu_config_region L s region addr size attr enable =
      ⟨(mpu_update_region
          (mpu_update_region s region addr (cfg_size_bit size + 1) attr enable
            (cfg_srd1 size ^^^ 0xff)).s
          ((region + 1) % 256)
          ((addr + BIT (cfg_size_bit size - 2) * cfg_blocks size) % 2 ^ 32)
          (cfg_size_bit size - 2) attr enable (cfg_srd2 size ^^^ 0xff)).s,
        (mpu_update_region s region addr (cfg_size_bit size + 1) attr enable
          (cfg_srd1 size ^^^ 0xff)).writes ++
        (mpu_update_region
          (mpu_update_region s region addr (cfg_size_bit size + 1) attr enable
            (cfg_srd1 size ^^^ 0xff)).s
          ((region + 1) % 256)
          ((addr + BIT (cfg_size_bit size - 2) * cfg_blocks size) % 2 ^ 32)
          (cfg_size_bit size - 2) attr enable (cfg_srd2 size ^^^ 0xff)).writes,
        [⟨region, addr, size, attr, enable⟩],
        (mpu_update_region
          (mpu_update_region s region addr (cfg_size_bit size + 1) attr enable
            (cfg_srd1 size ^^^ 0xff)).s
          ((region + 1) % 256)
          ((addr + BIT (cfg_size_bit size - 2) * cfg_blocks size) % 2 ^ 32)
          (cfg_size_bit size - 2) attr enable (cfg_srd2 size ^^^ 0xff)).err⟩ := by
  have hB : ¬ (region = L.REGION_DATA_RAM_TEXT ∨ cfg_size_bit size < 10) :=
    fun hb => hg ⟨hsrd2, hb⟩
  simp [mpu_config_region, h0, h5, hp2, h7, hres, hB, hsrd2, hr1]

lemma config_eq_r1_fail {L : MpuLayout} {s : MpuState} {region addr size attr enable : Nat}
    (h0 : size ≠ 0) (h5 : ¬ cfg_size_bit size < 5) (hp2 : POWER_OF_TWO size = false)
    (h7 : ¬ cfg_size_bit size < 7) (hres : cfg_residual size = 0)
    (hg : ¬ (cfg_srd2 size ≠ 0 ∧ (region = L.REGION_DATA_RAM_TEXT ∨ cfg_size_bit size < 10)))
    (hr1 : (mpu_update_region s region addr (cfg_size_bit size + 1) attr enable
        (cfg_srd1 size ^^^ 0xff)).err ≠ none) :
    mpu_config_region L s region addr size attr enable =
      { mpu_update_region s region addr (cfg_size_bit size + 1) attr enable
          (cfg_srd1 size ^^^ 0xff) with
        reqs := [⟨region, addr, size, attr, enable⟩] } := by
  by_cases hsrd2 : cfg_srd2 size = 0
  · exact config_eq_one_region h0 h5 hp2 h7 hres hsrd2
  · have hB : ¬ (region = L.REGION_DATA_RAM_TEXT ∨ cfg_size_bit size < 10) :=
      fun hb => hg ⟨hsrd2, hb⟩
    simp [mpu_config_region, h0, h5, hp2, h7, hres, hB, hsrd2, hr1]

/-! ### Enabled-range lemmas -/

lemma traceEnabled_one (w : RegionWrite) (a : Nat) :
    traceEnabled [w] a = writeEnabled w a := by
  simp [traceEnabled]

lemma traceEnabled_two (w1 w2 : RegionWrite) (a : Nat) :
    traceEnabled [w1, w2] a = (writeEnabled w1 a || writeEnabled w2 a) := by
  simp [traceEnabled]

/-- A write with a clear sub-block disable mask protects exactly its whole
power-of-two range. -/
lemma writeEnabled_full_iff {reg base E att en : Nat} (hen : en ≠ 0) (a : Nat) :
    writeEnabled ⟨reg, base, E, att, en, 0⟩ a = true ↔
      (base ≤ a ∧ a < base + 2 ^ E) := by
  simp [writeEnabled, hen, Nat.zero_testBit]

/-- A write whose disable mask is the complement of the low `b` bits protects
exactly the first `b` eighths of its range. -/
lemma writeEnabled_mask_iff {reg base E b att en : Nat} (hE : 3 ≤ E) (hb : b ≤ 8)
    (hen : en ≠ 0) (a : Nat) :
    writeEnabled ⟨reg, base, E, att, en, (2 ^ b - 1) ^^^ 0xff⟩ a = true ↔
      (base ≤ a ∧ a < base + b * 2 ^ (E - 3)) := by
  have hBpos : 0 < 2 ^ (E - 3) := Nat.two_pow_pos _
  have h8 : 2 ^ E = 8 * 2 ^ (E - 3) := by
    rw [pow_split E 3 hE]
    norm_num [Nat.mul_comm]
  have hsrd : ∀ i, ((2 ^ b - 1) ^^^ 0xff).testBit i
      = (decide (i < b) ^^ decide (i < 8)) := by
    intro i
    rw [show (0xff : Nat) = 2 ^ 8 - 1 by norm_num, Nat.testBit_xor,
      Nat.testBit_two_pow_sub_one, Nat.testBit_two_pow_sub_one]
  simp only [writeEnabled, Bool.and_eq_true, bne_iff_ne, ne_eq, decide_eq_true_eq,
    Bool.not_eq_true']
  constructor
  · rintro ⟨⟨⟨-, h1⟩, h2⟩, h3⟩
    refine ⟨h1, ?_⟩
    by_contra hge
    push_neg at hge
    have hidx_ge : b ≤ (a - base) / 2 ^ (E - 3) := by
      rw [Nat.le_div_iff_mul_le hBpos]
      omega
    have hidx_lt : (a - base) / 2 ^ (E - 3) < 8 := by
      rw [Nat.div_lt_iff_lt_mul hBpos]
      omega
    rw [hsrd] at h3
    simp [Nat.not_lt.2 hidx_ge, hidx_lt] at h3
  · rintro ⟨h1, h2⟩
    have hmul : b * 2 ^ (E - 3) ≤ 8 * 2 ^ (E - 3) := Nat.mul_le_mul_right _ hb
    have ha2 : a < base + 2 ^ E := by omega
    refine ⟨⟨⟨hen, h1⟩, ha2⟩, ?_⟩
    have hidx : (a - base) / 2 ^ (E - 3) < b := by
      rw [Nat.div_lt_iff_lt_mul hBpos]
      omega
    rw [hsrd]
    simp [hidx, lt_of_lt_of_le hidx hb]

/-- An address aligned to `B` and below a multiple of `B` stays below it
after adding less than `B`. -/
lemma aligned_add_lt {addr B C k : Nat} (h : addr % B = 0) (h2 : addr < C)
    (hBC : B ∣ C) (hk : k < B) : addr + k < C := by
  obtain ⟨c, rfl⟩ := hBC
  obtain ⟨q, rfl⟩ := Nat.dvd_of_mod_eq_zero h
  have hqc : q < c := by
    by_contra hle
    push_neg at hle
    have : B * c ≤ B * q := Nat.mul_le_mul_left _ hle
    omega
  calc B * q + k < B * q + B := by omega
    _ = B * (q + 1) := by ring
    _ ≤ B * c := Nat.mul_le_mul_left _ (by omega)

lemma mk_s (st : MpuState) (w : List RegionWrite) (q : List ConfigReq)
    (e : Option ConfigError) : (MpuResult.mk st w q e).s = st := rfl

lemma mk_writes (st : MpuState) (w : List RegionWrite) (q : List ConfigReq)
    (e : Option ConfigError) : (MpuResult.mk st w q e).writes = w := rfl

lemma mk_reqs (st : MpuState) (w : List RegionWrite) (q : List ConfigReq)
    (e : Option ConfigError) : (MpuResult.mk st w q e).reqs = q := rfl

lemma mk_err (st : MpuState) (w : List RegionWrite) (q : List ConfigReq)
    (e : Option ConfigError) : (MpuResult.mk st w q e).err = e := rfl

lemma cfg_residual_eq (size : Nat) : cfg_residual size
    = size &&& ((2 ^ 32 - 1) ^^^ (0x3f <<< (cfg_size_bit size - 5))) := rfl

lemma cfg_blocks_eq (size : Nat) : cfg_blocks size
    = (size >>> (cfg_size_bit size - 2)) % 256 := rfl

lemma cfg_srd1_eq (size : Nat) : cfg_srd1 size
    = (BIT (cfg_blocks size) - 1) % 256 := rfl

lemma cfg_srd2_eq (size : Nat) : cfg_srd2 size
    = ((1 <<< ((size >>> (cfg_size_bit size - 5)) &&& 0x7)) - 1) % 256 := rfl

/-- Claim C1: every protection request that `mpu_config_region` accepts with
non-zero length and enable set produces at most two region encodings, and the
union of the address ranges left enabled by the encodings' sub-block disable
masks is exactly the requested byte range `[addr, addr + size)`: no byte
inside the range is left unprotected and no byte outside it is protected. -/
theorem mpu_config_region_exact_cover (L : MpuLayout) (s : MpuState)
    (region addr size attr enable : Nat)
    (ha32 : addr < 2 ^ 32) (hs32 : size < 2 ^ 32) (h0 : size ≠ 0) (hen : enable ≠ 0)
    (hok : (mpu_config_region L s region addr size attr enable).err = none) :
    (mpu_config_region L s region addr size attr enable).writes.length ≤ 2 ∧
    ∀ a : Nat,
      (traceEnabled (mpu_config_region L s region addr size attr enable).writes a = true
        ↔ (addr ≤ a ∧ a < addr + size)) := by
  by_cases h5 : cfg_size_bit size < 5
  · rw [config_eq_small h0 h5] at hok
    simp at hok
  · by_cases hp2 : POWER_OF_TWO size = true
    · -- power-of-two case: one full region
      have hsz : size = 2 ^ cfg_size_bit size := eq_two_pow_of_POWER_OF_TWO hp2
      rw [config_eq_pow2 h0 h5 hp2] at hok ⊢
      rw [mk_err] at hok
      obtain ⟨h1, h2, h3⟩ := mpu_update_region_err_iff.1 hok
      obtain ⟨-, hw, -⟩ := mpu_update_region_ok _ _ _ _ attr enable 0 h1 h2 h3
      rw [mk_writes, hw]
      refine ⟨by simp, fun a => ?_⟩
      rw [traceEnabled_one, writeEnabled_full_iff hen, ← hsz]
    · have hp2f : POWER_OF_TWO size = false := by
        cases hb : POWER_OF_TWO size
        · rfl
        · exact absurd hb hp2
      by_cases h7 : cfg_size_bit size < 7
      · rw [config_eq_sub128 h0 h5 hp2f h7] at hok
        simp at hok
      · by_cases hres : cfg_residual size = 0
        · by_cases hg : cfg_srd2 size ≠ 0
              ∧ (region = L.REGION_DATA_RAM_TEXT ∨ cfg_size_bit size < 10)
          · rw [config_eq_gate h0 h5 hp2f h7 hres hg] at hok
            simp at hok
          · obtain ⟨hsz_eq, hm_lo, hm_hi, hblocks, hsrd1, hsrd2v⟩ :=
              cfg_split h0 hs32 (by omega) hres
            have hle : 2 ^ cfg_size_bit size ≤ size := Nat.log2_self_le h0
            have hE31 : cfg_size_bit size ≤ 31 := by
              by_contra hgt
              have : 2 ^ 32 ≤ 2 ^ cfg_size_bit size :=
                Nat.pow_le_pow_right (by omega) (by omega)
              omega
            have hpow3 : 2 ^ (cfg_size_bit size - 2)
                = 2 ^ (cfg_size_bit size - 5) * 8 := by
              rw [pow_split (cfg_size_bit size - 2) 3 (by omega),
                (by omega : cfg_size_bit size - 2 - 3 = cfg_size_bit size - 5)]
              norm_num
            have hb7 : cfg_blocks size ≤ 7 := by
              rw [hblocks]
              omega
            by_cases hsrd2 : cfg_srd2 size = 0
            · -- first region alone covers the range
              rw [config_eq_one_region h0 h5 hp2f h7 hres hsrd2] at hok ⊢
              rw [mk_err] at hok
              obtain ⟨h1, h2, h3⟩ := mpu_update_region_err_iff.1 hok
              obtain ⟨-, hw, -⟩ := mpu_update_region_ok _ _ _ _ attr enable
                (cfg_srd1 size ^^^ 0xff) h1 h2 h3
              have hm8 : size / 2 ^ (cfg_size_bit size - 5) % 8 = 0 := by
                rw [hsrd2] at hsrd2v
                by_contra hne
                have h2le : (2 : Nat) ≤ 2 ^ (size / 2 ^ (cfg_size_bit size - 5) % 8) := by
                  calc (2 : Nat) = 2 ^ 1 := rfl
                    _ ≤ _ := Nat.pow_le_pow_right (by omega) (by omega)
                omega
              have hkey : cfg_blocks size * 2 ^ (cfg_size_bit size - 2) = size := by
                rw [hblocks, hpow3]
                calc size / 2 ^ (cfg_size_bit size - 5) / 8
                      * (2 ^ (cfg_size_bit size - 5) * 8)
                    = size / 2 ^ (cfg_size_bit size - 5) / 8 * 8
                      * 2 ^ (cfg_size_bit size - 5) := by ring
                  _ = size / 2 ^ (cfg_size_bit size - 5)
                      * 2 ^ (cfg_size_bit size - 5) := by
                      congr 1
                      omega
                  _ = size := hsz_eq.symm
              rw [mk_writes, hw]
              refine ⟨by simp, fun a => ?_⟩
              rw [traceEnabled_one, hsrd1,
                writeEnabled_mask_iff (by omega) (by omega) hen,
                (by omega : cfg_size_bit size + 1 - 3 = cfg_size_bit size - 2), hkey]
            · -- two regions
              have hr1 : (mpu_update_region s region addr (cfg_size_bit size + 1) attr
                  enable (cfg_srd1 size ^^^ 0xff)).err = none := by
                by_contra hr1f
                rw [config_eq_r1_fail h0 h5 hp2f h7 hres hg hr1f, mk_err] at hok
                exact hr1f hok
              rw [config_eq_two_region h0 h5 hp2f h7 hres hg hsrd2 hr1] at hok ⊢
              rw [mk_err] at hok
              rw [mk_writes]
              obtain ⟨h1, h2, h3⟩ := mpu_update_region_err_iff.1 hr1
              obtain ⟨-, hw1, -⟩ := mpu_update_region_ok _ _ _ _ attr enable
                (cfg_srd1 size ^^^ 0xff) h1 h2 h3
              obtain ⟨h1b, h2b, h3b⟩ := mpu_update_region_err_iff.1 hok
              obtain ⟨-, hw2, -⟩ := mpu_update_region_ok _ _ _ _ attr enable
                (cfg_srd2 size ^^^ 0xff) h1b h2b h3b
              rw [hw1, hw2, List.singleton_append]
              have hpow31 : 2 ^ (cfg_size_bit size + 1)
                  = 2 ^ (cfg_size_bit size - 2) * 8 := by
                rw [pow_split (cfg_size_bit size + 1) 3 (by omega),
                  (by omega : cfg_size_bit size + 1 - 3 = cfg_size_bit size - 2)]
                norm_num
              have hklt : BIT (cfg_size_bit size - 2) * cfg_blocks size
                  < 2 ^ (cfg_size_bit size + 1) := by
                rw [BIT_eq, hpow31]
                have := Nat.mul_le_mul_left (2 ^ (cfg_size_bit size - 2)) hb7
                omega
              have hlt32 : addr + BIT (cfg_size_bit size - 2) * cfg_blocks size < 2 ^ 32 :=
                aligned_add_lt h1 ha32 (Nat.pow_dvd_pow 2 (by omega)) hklt
              have haddr2 : (addr + BIT (cfg_size_bit size - 2) * cfg_blocks size) % 2 ^ 32
                  = addr + 2 ^ (cfg_size_bit size - 2) * cfg_blocks size := by
                rw [Nat.mod_eq_of_lt hlt32, BIT_eq]
              have hkey : cfg_blocks size * 2 ^ (cfg_size_bit size - 2)
                  + size / 2 ^ (cfg_size_bit size - 5) % 8
                    * 2 ^ (cfg_size_bit size - 5) = size := by
                rw [hblocks, hpow3]
                calc size / 2 ^ (cfg_size_bit size - 5) / 8
                      * (2 ^ (cfg_size_bit size - 5) * 8)
                      + size / 2 ^ (cfg_size_bit size - 5) % 8
                        * 2 ^ (cfg_size_bit size - 5)
                    = (8 * (size / 2 ^ (cfg_size_bit size - 5) / 8)
                        + size / 2 ^ (cfg_size_bit size - 5) % 8)
                      * 2 ^ (cfg_size_bit size - 5) := by ring
                  _ = size / 2 ^ (cfg_size_bit size - 5)
                      * 2 ^ (cfg_size_bit size - 5) := by
                      rw [Nat.div_add_mod]
                  _ = size := hsz_eq.symm
              refine ⟨by simp, fun a => ?_⟩
              rw [traceEnabled_two, hsrd1, hsrd2v, haddr2, Bool.or_eq_true,
                writeEnabled_mask_iff (by omega) (by omega) hen,
                writeEnabled_mask_iff (by omega) (by omega) hen,
                (by omega : cfg_size_bit size + 1 - 3 = cfg_size_bit size - 2),
                (by omega : cfg_size_bit size - 2 - 3 = cfg_size_bit size - 5)]
              have hcomm : 2 ^ (cfg_size_bit size - 2) * cfg_blocks size
                  = cfg_blocks size * 2 ^ (cfg_size_bit size - 2) := Nat.mul_comm _ _
              omega
        · rw [config_eq_unrep h0 h5 hp2f h7 hres] at hok
          simp at hok

/-! ### Concrete layout and states used by witnesses -/

/-- A concrete slot-index layout used to instantiate witnesses. -/
def witnessLayout : MpuLayout := ⟨1, 5, 4, 6, 3⟩

/-- A concrete 8-region unified MPU state used to instantiate witnesses. -/
def witnessState : MpuState := ⟨8, true, 0, 0, List.replicate 8 ⟨0, 0⟩, false⟩

/-- Witness for claim C1 at a concrete accepted request: 4096 bytes at
base 8192, slot 2, enabled. -/
theorem mpu_config_region_exact_cover_witness :
    (8192 : Nat) < 2 ^ 32 ∧ (4096 : Nat) < 2 ^ 32 ∧ (4096 : Nat) ≠ 0 ∧ (1 : Nat) ≠ 0 ∧
    (mpu_config_region witnessLayout witnessState 2 8192 4096 7 1).err = none ∧
    ((mpu_config_region witnessLayout witnessState 2 8192 4096 7 1).writes.length ≤ 2 ∧
      ∀ a : Nat,
        (traceEnabled (mpu_config_region witnessLayout witnessState 2 8192 4096 7 1).writes
            a = true ↔ (8192 ≤ a ∧ a < 8192 + 4096))) := by
  have h12 : cfg_size_bit 4096 = 12 := log2_eq_of (by norm_num) (by norm_num)
  have hok : (mpu_config_region witnessLayout witnessState 2 8192 4096 7 1).err = none := by
    rw [config_eq_pow2 (by norm_num) (by omega) (by decide), mk_err, h12]
    exact (mpu_update_region_ok _ _ _ _ _ _ _ (by decide) (by decide) (by decide)).1
  exact ⟨by norm_num, by norm_num, by norm_num, by norm_num, hok,
    mpu_config_region_exact_cover witnessLayout witnessState 2 8192 4096 7 1
      (by norm_num) (by norm_num) (by norm_num) (by norm_num) hok⟩

/-- Claim C2: for every length `2 ^ k` with `k` between the minimum region
exponent 5 and the largest 32-bit exponent 31, base a multiple of the length
and the slot within the region count, `encode` succeeds with exactly one
region encoding whose size exponent is `k = log2 (2 ^ k)` and whose sub-block
disable mask is zero (no sub-block disabled). -/
theorem mpu_config_region_pow2_single (L : MpuLayout) (s : MpuState)
    (region addr k attr enable : Nat) (hk5 : 5 ≤ k) (hk31 : k ≤ 31)
    (halign : addr % 2 ^ k = 0) (hreg : region < s.regionCount) :
    (mpu_config_region L s region addr (2 ^ k) attr enable).err = none ∧
    (mpu_config_region L s region addr (2 ^ k) attr enable).writes
      = [⟨region, addr, k, attr, enable, 0⟩] := by
  have hlog : cfg_size_bit (2 ^ k) = k := log2_two_pow k
  have h0 : (2 : Nat) ^ k ≠ 0 := by
    have := Nat.two_pow_pos k
    omega
  rw [config_eq_pow2 h0 (by omega) (POWER_OF_TWO_two_pow k), mk_err, mk_writes, hlog]
  obtain ⟨he, hw, -⟩ := mpu_update_region_ok _ _ _ _ attr enable 0 halign hreg hk5
  exact ⟨he, hw⟩

/-- Witness for claim C2 at `k = 12`, base 8192, slot 2. -/
theorem mpu_config_region_pow2_single_witness :
    (5 ≤ 12 ∧ 12 ≤ 31 ∧ (8192 : Nat) % 2 ^ 12 = 0 ∧ 2 < witnessState.regionCount) ∧
    ((mpu_config_region witnessLayout witnessState 2 8192 (2 ^ 12) 7 1).err = none ∧
      (mpu_config_region witnessLayout witnessState 2 8192 (2 ^ 12) 7 1).writes
        = [⟨2, 8192, 12, 7, 1, 0⟩]) :=
  ⟨⟨by norm_num, by norm_num, by norm_num, by decide⟩,
    mpu_config_region_pow2_single witnessLayout witnessState 2 8192 12 7 1
      (by norm_num) (by norm_num) (by norm_num) (by decide)⟩

/-- Claim C6: a request whose non-zero length is smaller than the minimum
region size — `⌊log2 size⌋ < MPU_SIZE_BITS_MIN` — fails with `InvalidSize`,
with no write and unchanged state. -/
theorem mpu_config_region_too_small (L : MpuLayout) (s : MpuState)
    (region addr size attr enable : Nat) (h0 : size ≠ 0)
    (h5 : cfg_size_bit size < MPU_SIZE_BITS_MIN) :
    mpu_config_region L s region addr size attr enable
      = ⟨s, [], [⟨region, addr, size, attr, enable⟩], some .invalidSize⟩ :=
  config_eq_small h0 h5

/-- Witness for claim C6 at length 16 (the spec's example below the 32-byte
minimum). -/
theorem mpu_config_region_too_small_witness :
    ((16 : Nat) ≠ 0 ∧ cfg_size_bit 16 < MPU_SIZE_BITS_MIN) ∧
    mpu_config_region witnessLayout witnessState 2 0 16 7 1
      = ⟨witnessState, [], [⟨2, 0, 16, 7, 1⟩], some .invalidSize⟩ := by
  have h4 : cfg_size_bit 16 = 4 := log2_eq_of (by norm_num) (by norm_num)
  have h5v : MPU_SIZE_BITS_MIN = 5 := rfl
  exact ⟨⟨by norm_num, by omega⟩,
    mpu_config_region_too_small witnessLayout witnessState 2 0 16 7 1
      (by norm_num) (by omega)⟩

/-- Claim C7: a zero-length request returns success with no region encoding
produced and the hardware state unchanged, regardless of base address,
attributes and enable flag. -/
theorem mpu_config_region_zero_noop (L : MpuLayout) (s : MpuState)
    (region addr attr enable : Nat) :
    (mpu_config_region L s region addr 0 attr enable).err = none ∧
    (mpu_config_region L s region addr 0 attr enable).writes = [] ∧
    (mpu_config_region L s region addr 0 attr enable).s = s := by
  rw [config_eq_zero]
  exact ⟨rfl, rfl, rfl⟩

/-- Claim C4: a non-power-of-two request that reaches the second-region
decision (size checks and representability passed) and whose second sub-block
mask is non-zero is rejected with `Unrepresentable` — no encoding emitted —
whenever the slot is the code-exemption class `REGION_DATA_RAM_TEXT` or the
size exponent is below 10. -/
theorem mpu_config_region_second_region_rejected (L : MpuLayout) (s : MpuState)
    (region addr size attr enable : Nat) (h0 : size ≠ 0)
    (hp2 : POWER_OF_TWO size = false) (h7 : ¬ cfg_size_bit size < 7)
    (hres : cfg_residual size = 0) (hsrd2 : cfg_srd2 size ≠ 0)
    (hbad : region = L.REGION_DATA_RAM_TEXT ∨ cfg_size_bit size < 10) :
    mpu_config_region L s region addr size attr enable
      = ⟨s, [], [⟨region, addr, size, attr, enable⟩], some .unrepresentable⟩ :=
  config_eq_gate h0 (by omega) hp2 h7 hres ⟨hsrd2, hbad⟩

/-- Witness for claim C4 at length 240 (exponent 7 < 10, second mask 15). -/
theorem mpu_config_region_second_region_rejected_witness :
    ((240 : Nat) ≠ 0 ∧ POWER_OF_TWO 240 = false ∧ ¬ cfg_size_bit 240 < 7 ∧
      cfg_residual 240 = 0 ∧ cfg_srd2 240 ≠ 0 ∧
      (2 = witnessLayout.REGION_DATA_RAM_TEXT ∨ cfg_size_bit 240 < 10)) ∧
    mpu_config_region witnessLayout witnessState 2 0 240 7 1
      = ⟨witnessState, [], [⟨2, 0, 240, 7, 1⟩], some .unrepresentable⟩ := by
  have hlog : cfg_size_bit 240 = 7 := log2_eq_of (by norm_num) (by norm_num)
  have hres : cfg_residual 240 = 0 := by
    rw [cfg_residual_eq, hlog]
    decide
  have hsrd2 : cfg_srd2 240 ≠ 0 := by
    rw [cfg_srd2_eq, hlog]
    decide
  exact ⟨⟨by norm_num, by decide, by omega, hres, hsrd2, Or.inr (by omega)⟩,
    mpu_config_region_second_region_rejected witnessLayout witnessState 2 0 240 7 1
      (by norm_num) (by decide) (by omega) hres hsrd2 (Or.inr (by omega))⟩

/-- A request's derived region size exponent: `size_bit` itself in the exact
power-of-two case, `size_bit + 1` for the first (rounded) region
otherwise. -/
def derived_size_bit (size : Nat) : Nat :=
  if POWER_OF_TWO size then cfg_size_bit size else cfg_size_bit size + 1

/-- Claim C5: a request with non-zero length that passes the size checks but
whose base address is not a multiple of the derived region size
(`2 ^ size_bit` in the power-of-two case, `2 ^ (size_bit + 1)` for the first
rounded region) fails with `Misaligned`, with no write and unchanged
state. -/
theorem mpu_config_region_misaligned (L : MpuLayout) (s : MpuState)
    (region addr size attr enable : Nat) (h0 : size ≠ 0)
    (h5 : ¬ cfg_size_bit size < 5)
    (hpath : POWER_OF_TWO size = true ∨
      (¬ cfg_size_bit size < 7 ∧ cfg_residual size = 0 ∧
        ¬ (cfg_srd2 size ≠ 0 ∧ (region = L.REGION_DATA_RAM_TEXT ∨ cfg_size_bit size < 10))))
    (halign : addr % 2 ^ derived_size_bit size ≠ 0) :
    mpu_config_region L s region addr size attr enable
      = ⟨s, [], [⟨region, addr, size, attr, enable⟩], some .misaligned⟩ := by
  by_cases hp2 : POWER_OF_TWO size = true
  · have halign' : addr % 2 ^ cfg_size_bit size ≠ 0 := by
      simpa [derived_size_bit, hp2] using halign
    rw [config_eq_pow2 h0 h5 hp2, mpu_update_region_eq_misaligned halign']
  · have hp2f : POWER_OF_TWO size = false := by
      cases hb : POWER_OF_TWO size
      · rfl
      · exact absurd hb hp2
    rcases hpath with hp2t | ⟨h7, hres, hg⟩
    · exact absurd hp2t hp2
    · have halign' : addr % 2 ^ (cfg_size_bit size + 1) ≠ 0 := by
        simpa [derived_size_bit, hp2f] using halign
      have hr1 : mpu_update_region s region addr (cfg_size_bit size + 1) attr enable
          (cfg_srd1 size ^^^ 0xff) = ⟨s, [], [], some .misaligned⟩ :=
        mpu_update_region_eq_misaligned halign'
      rw [config_eq_r1_fail h0 h5 hp2f h7 hres hg (by rw [hr1]; simp), hr1]

/-- Witness for claim C5: 32 bytes at the unaligned base 48. -/
theorem mpu_config_region_misaligned_witness :
    ((32 : Nat) ≠ 0 ∧ ¬ cfg_size_bit 32 < 5 ∧ POWER_OF_TWO 32 = true ∧
      (48 : Nat) % 2 ^ derived_size_bit 32 ≠ 0) ∧
    mpu_config_region witnessLayout witnessState 2 48 32 7 1
      = ⟨witnessState, [], [⟨2, 48, 32, 7, 1⟩], some .misaligned⟩ := by
  have hlog : cfg_size_bit 32 = 5 := log2_eq_of (by norm_num) (by norm_num)
  have hder : derived_size_bit 32 = 5 := by
    rw [derived_size_bit, if_pos (by decide : POWER_OF_TWO 32 = true), hlog]
  have halign : (48 : Nat) % 2 ^ derived_size_bit 32 ≠ 0 := by
    rw [hder]
    norm_num
  exact ⟨⟨by norm_num, by omega, by decide, halign⟩,
    mpu_config_region_misaligned witnessLayout witnessState 2 48 32 7 1
      (by norm_num) (by omega) (Or.inl (by decide)) halign⟩

/-- Claim C10: whenever `mpu_update_region` returns an error — misaligned
base, slot index at or beyond the region count, or size exponent below the
minimum — it modifies no hardware register: the returned state equals the
input state and the write trace is empty. -/
theorem mpu_update_region_error_no_write (s : MpuState)
    (region addr size_bit attr enable srd : Nat) (e : ConfigError)
    (h : (mpu_update_region s region addr size_bit attr enable srd).err = some e) :
    (mpu_update_region s region addr size_bit attr enable srd).s = s ∧
    (mpu_update_region s region addr size_bit attr enable srd).writes = [] := by
  rw [mpu_update_region_error_frame h]
  exact ⟨rfl, rfl⟩

/-- Witness for claim C10 at a concrete misaligned update. -/
theorem mpu_update_region_error_no_write_witness :
    (mpu_update_region witnessState 2 48 5 0 1 0).err = some ConfigError.misaligned ∧
    ((mpu_update_region witnessState 2 48 5 0 1 0).s = witnessState ∧
      (mpu_update_region witnessState 2 48 5 0 1 0).writes = []) := by
  have h : (mpu_update_region witnessState 2 48 5 0 1 0).err
      = some ConfigError.misaligned := by
    rw [mpu_update_region_eq_misaligned (by norm_num)]
  exact ⟨h, mpu_update_region_error_no_write witnessState 2 48 5 0 1 0 _ h⟩

lemma mpu_update_region_regionCount (s : MpuState)
    (region addr size_bit attr enable srd : Nat) :
    (mpu_update_region s region addr size_bit attr enable srd).s.regionCount
      = s.regionCount := by
  simp only [mpu_update_region, MpuState.setSlot]
  repeat' split
  all_goals rfl

/-- Counterexample to claim C3 as stated: a request of 96 bytes (not a power
of two) at a 128-byte-aligned base does not succeed — `mpu_config_region`
rejects it with `InvalidSize`, because sub-block rounding requires a size
exponent of at least 7 (size above 128 bytes) while `⌊log2 96⌋ = 6`. -/
theorem mpu_config_region_96_fails :
    (mpu_config_region witnessLayout witnessState 2 1024 96 7 1).err
      = some ConfigError.invalidSize := by
  have hlog : cfg_size_bit 96 = 6 := log2_eq_of (by norm_num) (by norm_num)
  rw [config_eq_sub128 (by norm_num) (by omega) (by decide) (by omega), mk_err]

/-- Claim C3 (amended): for a request of 1920 bytes (not a power of two,
needing a 2048-byte envelope) at a base aligned to 2048 bytes, with both
needed slots below the region count and the slot not the code-exemption
class, `encode` succeeds and returns exactly two encodings whose union of
enabled address ranges covers exactly `[base, base + 1920)`. -/
theorem mpu_config_region_two_region_cover (L : MpuLayout) (s : MpuState)
    (region addr attr enable : Nat)
    (ha32 : addr < 2 ^ 32) (halign : addr % 2048 = 0) (hen : enable ≠ 0)
    (hreg : region < s.regionCount) (hreg2 : (region + 1) % 256 < s.regionCount)
    (hdrt : region ≠ L.REGION_DATA_RAM_TEXT) :
    (mpu_config_region L s region addr 1920 attr enable).err = none ∧
    (mpu_config_region L s region addr 1920 attr enable).writes.length = 2 ∧
    ∀ a : Nat,
      (traceEnabled (mpu_config_region L s region addr 1920 attr enable).writes a = true
        ↔ (addr ≤ a ∧ a < addr + 1920)) := by
  have hlog : cfg_size_bit 1920 = 10 := log2_eq_of (by norm_num) (by norm_num)
  have hp2f : POWER_OF_TWO 1920 = false := by decide
  have hres : cfg_residual 1920 = 0 := by
    rw [cfg_residual_eq, hlog]
    decide
  have hsrd2 : cfg_srd2 1920 = 2 ^ 4 - 1 := by
    rw [cfg_srd2_eq, hlog]
    decide
  have hblocks : cfg_blocks 1920 = 7 := by
    rw [cfg_blocks_eq, hlog]
    decide
  have hsrd1 : cfg_srd1 1920 = 2 ^ 7 - 1 := by
    rw [cfg_srd1_eq, hblocks]
    decide
  have hsrd2ne : cfg_srd2 1920 ≠ 0 := by
    rw [hsrd2]
    norm_num
  have hg : ¬ (cfg_srd2 1920 ≠ 0
      ∧ (region = L.REGION_DATA_RAM_TEXT ∨ cfg_size_bit 1920 < 10)) := by
    rintro ⟨-, h | h⟩
    · exact hdrt h
    · omega
  have h2048 : (2 : Nat) ^ (cfg_size_bit 1920 + 1) = 2048 := by
    rw [hlog]
    norm_num
  have halign1 : addr % 2 ^ (cfg_size_bit 1920 + 1) = 0 := by
    rw [h2048]
    exact halign
  have hr1ok := mpu_update_region_ok s region addr (cfg_size_bit 1920 + 1) attr enable
    (cfg_srd1 1920 ^^^ 0xff) halign1 hreg (by omega)
  rw [config_eq_two_region (by norm_num) (by omega) hp2f (by omega) hres hg hsrd2ne
    hr1ok.1, mk_err, mk_writes]
  have haddr2lt : addr + BIT (cfg_size_bit 1920 - 2) * cfg_blocks 1920 < 2 ^ 32 := by
    rw [hlog, hblocks, BIT_eq]
    exact aligned_add_lt (B := 2048) halign ha32 (by norm_num) (by norm_num)
  have haddr2 : (addr + BIT (cfg_size_bit 1920 - 2) * cfg_blocks 1920) % 2 ^ 32
      = addr + 1792 := by
    rw [Nat.mod_eq_of_lt haddr2lt, hlog, hblocks, BIT_eq]
    norm_num
  rw [haddr2]
  have h256 : (2 : Nat) ^ (cfg_size_bit 1920 - 2) = 256 := by
    rw [hlog]
    norm_num
  have halign2 : (addr + 1792) % 2 ^ (cfg_size_bit 1920 - 2) = 0 := by
    rw [h256]
    omega
  have hreg2' : (region + 1) % 256 <
      (mpu_update_region s region addr (cfg_size_bit 1920 + 1) attr enable
        (cfg_srd1 1920 ^^^ 0xff)).s.regionCount := by
    rw [mpu_update_region_regionCount]
    exact hreg2
  have hr2ok := mpu_update_region_ok _ _ _ _ attr enable
    (cfg_srd2 1920 ^^^ 0xff) halign2 hreg2' (by omega)
  obtain ⟨-, hw1, -⟩ := hr1ok
  obtain ⟨h2e, hw2, -⟩ := hr2ok
  rw [hw1, hw2, List.singleton_append]
  refine ⟨h2e, by simp, fun a => ?_⟩
  rw [traceEnabled_two, hsrd1, hsrd2, Bool.or_eq_true,
    writeEnabled_mask_iff (by omega) (by norm_num) hen,
    writeEnabled_mask_iff (by omega) (by norm_num) hen]
  simp only [hlog]
  norm_num
  omega

/-- Witness for the amended claim C3 at base 65536, slot 2. -/
theorem mpu_config_region_two_region_cover_witness :
    ((65536 : Nat) < 2 ^ 32 ∧ (65536 : Nat) % 2048 = 0 ∧ (1 : Nat) ≠ 0 ∧
      2 < witnessState.regionCount ∧ (2 + 1) % 256 < witnessState.regionCount ∧
      2 ≠ witnessLayout.REGION_DATA_RAM_TEXT) ∧
    ((mpu_config_region witnessLayout witnessState 2 65536 1920 7 1).err = none ∧
      (mpu_config_region witnessLayout witnessState 2 65536 1920 7 1).writes.length = 2 ∧
      ∀ a : Nat,
        (traceEnabled (mpu_config_region witnessLayout witnessState 2 65536 1920 7 1).writes
            a = true ↔ (65536 ≤ a ∧ a < 65536 + 1920))) :=
  ⟨⟨by norm_num, by norm_num, by norm_num, by decide, by decide, by decide⟩,
    mpu_config_region_two_region_cover witnessLayout witnessState 2 65536 7 1
      (by norm_num) (by norm_num) (by norm_num) (by decide) (by decide) (by decide)⟩

/-- Every `mpu_config_region` call issues exactly its own configuration
request, whatever the outcome. -/
lemma config_reqs (L : MpuLayout) (s : MpuState) (region addr size attr enable : Nat) :
    (mpu_config_region L s region addr size attr enable).reqs
      = [⟨region, addr, size, attr, enable⟩] := by
  simp only [mpu_config_region]
  repeat' split
  all_goals rfl

/-- Claim C8: when the rollback slot `REGION_ROLLBACK` is below the hardware
region count, `mpu_lock_rollback` issues a single region-configuration
request over the full rollback byte range with execute-never / no-access
attributes; otherwise — provided the first half-range request does not
fail — it issues exactly two requests of size `total / 2` each, the first at
the range start and the second at `start + total / 2`, in the two fallback
slots, with the same attributes. -/
theorem mpu_lock_rollback_requests (L : MpuLayout) (start total : Nat)
    (s : MpuState) (lock : Nat) (hstart : start < 2 ^ 32)
    (hov : start + total ≤ 2 ^ 32) :
    (L.REGION_ROLLBACK < s.regionCount →
      (mpu_lock_rollback L start total s lock).reqs
        = [⟨L.REGION_ROLLBACK, start, total, MPU_ATTR_XN ||| MPU_ATTR_NO_NO, lock⟩]) ∧
    (¬ L.REGION_ROLLBACK < s.regionCount →
      (mpu_config_region L s L.REGION_CHIP_RESERVED start (total / 2)
          (MPU_ATTR_XN ||| MPU_ATTR_NO_NO) lock).err = none →
      (mpu_lock_rollback L start total s lock).reqs
        = [⟨L.REGION_CHIP_RESERVED, start, total / 2,
              MPU_ATTR_XN ||| MPU_ATTR_NO_NO, lock⟩,
           ⟨L.REGION_STORAGE2, start + total / 2, total / 2,
              MPU_ATTR_XN ||| MPU_ATTR_NO_NO, lock⟩]) := by
  have hmod : (start + total / 2) % 2 ^ 32 = start + total / 2 := by
    apply Nat.mod_eq_of_lt
    omega
  constructor
  · intro h
    simp only [mpu_lock_rollback, mpu_num_regions]
    rw [if_pos h]
    exact config_reqs L s L.REGION_ROLLBACK start total
      (MPU_ATTR_XN ||| MPU_ATTR_NO_NO) lock
  · intro h herr
    simp only [mpu_lock_rollback, mpu_num_regions]
    rw [if_neg h]
    simp only [MpuResult.seq, herr]
    rw [mk_reqs, config_reqs, config_reqs, hmod, List.singleton_append]

/-- An alternative slot layout whose rollback slot (index 8) is outside an
8-region topology, used to exercise the two-request fallback. -/
def witnessLayoutSplit : MpuLayout := ⟨1, 8, 4, 6, 3⟩

/-- Witness for claim C8: the single-request branch at `witnessLayout`
(rollback slot 5 of 8) and the two-request branch at `witnessLayoutSplit`
(rollback slot 8 of 8). -/
theorem mpu_lock_rollback_requests_witness :
    (witnessLayout.REGION_ROLLBACK < witnessState.regionCount ∧
      (mpu_lock_rollback witnessLayout 524288 131072 witnessState 1).reqs
        = [⟨witnessLayout.REGION_ROLLBACK, 524288, 131072,
              MPU_ATTR_XN ||| MPU_ATTR_NO_NO, 1⟩]) ∧
    (¬ witnessLayoutSplit.REGION_ROLLBACK < witnessState.regionCount ∧
      (mpu_config_region witnessLayoutSplit witnessState
          witnessLayoutSplit.REGION_CHIP_RESERVED 524288 (131072 / 2)
          (MPU_ATTR_XN ||| MPU_ATTR_NO_NO) 1).err = none ∧
      (mpu_lock_rollback witnessLayoutSplit 524288 131072 witnessState 1).reqs
        = [⟨witnessLayoutSplit.REGION_CHIP_RESERVED, 524288, 131072 / 2,
              MPU_ATTR_XN ||| MPU_ATTR_NO_NO, 1⟩,
           ⟨witnessLayoutSplit.REGION_STORAGE2, 524288 + 131072 / 2, 131072 / 2,
              MPU_ATTR_XN ||| MPU_ATTR_NO_NO, 1⟩]) := by
  have h5 : witnessLayout.REGION_ROLLBACK < witnessState.regionCount := by decide
  have h8 : ¬ witnessLayoutSplit.REGION_ROLLBACK < witnessState.regionCount := by decide
  have hlog : cfg_size_bit 65536 = 16 := log2_eq_of (by norm_num) (by norm_num)
  have herr : (mpu_config_region witnessLayoutSplit witnessState
      witnessLayoutSplit.REGION_CHIP_RESERVED 524288 (131072 / 2)
      (MPU_ATTR_XN ||| MPU_ATTR_NO_NO) 1).err = none := by
    show (mpu_config_region witnessLayoutSplit witnessState 4 524288 65536
      (MPU_ATTR_XN ||| MPU_ATTR_NO_NO) 1).err = none
    rw [config_eq_pow2 (by norm_num) (by omega) (by decide), mk_err, hlog]
    exact (mpu_update_region_ok _ _ _ _ _ _ _ (by decide) (by decide) (by decide)).1
  exact ⟨⟨h5, (mpu_lock_rollback_requests witnessLayout 524288 131072 witnessState 1
      (by norm_num) (by norm_num)).1 h5⟩,
    ⟨h8, herr, (mpu_lock_rollback_requests witnessLayoutSplit 524288 131072 witnessState 1
      (by norm_num) (by norm_num)).2 h8 herr⟩⟩

/-- Claim C9: the boot sequencer fails `NoMpu` when the capability query
reports zero regions, and `UnsupportedTopology` when the region map is not
unified or the region count is neither 8 nor 16 (e.g. 12); in both cases it
returns before issuing any hardware register write — the state is returned
unchanged and the write trace is empty. -/
theorem mpu_pre_init_topology_guard (L : MpuLayout)
    (cfgRollback cfgCache cfgUncached : Bool)
    (rbStart rbTotal ucStart ucSize : Nat) (s : MpuState) :
    (s.regionCount = 0 →
      mpu_pre_init L cfgRollback cfgCache cfgUncached rbStart rbTotal ucStart ucSize s
        = ⟨s, [], [], some .noMpu⟩) ∧
    (s.regionCount ≠ 0 →
      (s.isUnified = false ∨ (s.regionCount ≠ 8 ∧ s.regionCount ≠ 16)) →
      mpu_pre_init L cfgRollback cfgCache cfgUncached rbStart rbTotal ucStart ucSize s
        = ⟨s, [], [], some .unsupportedTopology⟩) := by
  constructor
  · intro h0
    simp [mpu_pre_init, has_mpu, mpu_num_regions, h0]
  · intro h0 htop
    rcases htop with hu | hc
    · simp [mpu_pre_init, has_mpu, mpu_num_regions, h0, mpu_is_unified, hu]
    · simp [mpu_pre_init, has_mpu, mpu_num_regions, h0, mpu_is_unified, hc.1, hc.2]

/-- Capability state with no MPU (zero regions). -/
def witnessStateNoMpu : MpuState := ⟨0, true, 0, 0, [], false⟩

/-- Capability state with the unsupported region count 12. -/
def witnessState12 : MpuState := ⟨12, true, 0, 0, List.replicate 12 ⟨0, 0⟩, false⟩

/-- Witness for claim C9 at region counts 0 and 12. -/
theorem mpu_pre_init_topology_guard_witness :
    (mpu_pre_init witnessLayout true true false 0 0 0 0 witnessStateNoMpu
      = ⟨witnessStateNoMpu, [], [], some .noMpu⟩) ∧
    (mpu_pre_init witnessLayout true true false 0 0 0 0 witnessState12
      = ⟨witnessState12, [], [], some .unsupportedTopology⟩) :=
  ⟨(mpu_pre_init_topology_guard witnessLayout true true false 0 0 0 0
      witnessStateNoMpu).1 rfl,
   (mpu_pre_init_topology_guard witnessLayout true true false 0 0 0 0
      witnessState12).2 (by decide) (Or.inr ⟨by decide, by decide⟩)⟩
